import Mathlib

/-!
Verification of the PUC-ResearchBot document acquisition and indexing
pipeline.  The JavaScript sources are shallowly embedded: strings are
`List Char`, JS numbers are `Nat`/`Int`/`ℚ` as appropriate, and the
browser-automation loops are modelled as pure functions over the values
the page evaluations return.
-/

/-! ## Models of the JavaScript string primitives used by the sources -/

/-- Model of the character class matched by JS `\s` and removed by
`String.prototype.trim` (ASCII part; the sources only process ASCII). -/
def jsWhitespace (c : Char) : Bool :=
  c = ' ' || c = '\t' || c = '\n' || c = '\r' || c = '\x0b' || c = '\x0c'

/-- Model of `String.prototype.toLowerCase` (ASCII). -/
def toLowerStr (s : List Char) : List Char :=
  s.map Char.toLower

/-- Model of `String.prototype.trim`: drop leading and trailing whitespace. -/
def jsTrim (s : List Char) : List Char :=
  ((s.dropWhile jsWhitespace).reverse.dropWhile jsWhitespace).reverse

/-- Model of `hay.includes(pat)` (substring containment). -/
def jsIncludes (hay pat : List Char) : Bool :=
  decide (pat <:+: hay)

/-- Model of `str.split(sep)` for a single separator character: JS keeps the
empty pieces between consecutive separators. -/
def splitOnChar (sep : Char) : List Char → List (List Char)
  | [] => [[]]
  | c :: rest =>
    if c = sep then [] :: splitOnChar sep rest
    else
      match splitOnChar sep rest with
      | [] => [[c]]
      | w :: ws => (c :: w) :: ws

/-- Model of `str.split(/\s+/)`-style splitting, parameterised by the
separator predicate; empty pieces are kept (the callers filter them out by
length, so run-splitting and single-splitting agree after the filter). -/
def splitOnPred (p : Char → Bool) : List Char → List (List Char)
  | [] => [[]]
  | c :: rest =>
    if p c then [] :: splitOnPred p rest
    else
      match splitOnPred p rest with
      | [] => [[c]]
      | w :: ws => (c :: w) :: ws

/-- Helper for `jsLastIndexOf`: scan the haystack recording the index of the
last position where the pattern occurs as a prefix. -/
def lastIndexOfAux (pat : List Char) : List Char → Nat → Option Nat → Option Nat
  | [], _, acc => acc
  | c :: rest, i, acc =>
    lastIndexOfAux pat rest (i + 1)
      (if pat.isPrefixOf (c :: rest) then some i else acc)

/-- Model of `hay.lastIndexOf(pat)`: the greatest index at which `pat`
occurs in `hay`, or `-1` if it does not occur. -/
def jsLastIndexOf (hay pat : List Char) : Int :=
  match lastIndexOfAux pat hay 0 none with
  | some i => (i : Int)
  | none => -1

/-- Model of `(hay.match(new RegExp(pat, 'g')) || []).length` for a literal
pattern: the number of non-overlapping leftmost occurrences.  The sources
only build such regexes from strings without metacharacters.  A JS empty
pattern matches at every position; the callers never pass one. -/
def countOccurAux (pat : List Char) : Nat → List Char → Nat
  | 0, _ => 0
  | _ + 1, [] => 0
  | fuel + 1, c :: rest =>
    if pat.isPrefixOf (c :: rest) then
      1 + countOccurAux pat fuel ((c :: rest).drop pat.length)
    else
      countOccurAux pat fuel rest

def countOccur (hay pat : List Char) : Nat :=
  match pat with
  | [] => hay.length + 1
  | _ :: _ =>
    -- Every scan step consumes at least one character of the haystack
    -- (the pattern is non-empty here), so fuel `hay.length + 1` strictly
    -- exceeds the number of steps and the fuel never runs out.
    countOccurAux pat (hay.length + 1) hay

/-! ## Case Matcher: `validateCaseDate` (crawler.js lines 86-143,
part_003 lines 283-325)

The page evaluation scrapes a `M/D/YYYY` "Date Filed" string (or `null`
when no such cell exists); the scraped string is then compared via
`new Date(dateStr) >= new Date(startDate) && new Date(dateStr) <= new Date(endDate)`.
Parsed JS dates are modelled as abstract integer timestamps; a missing or
unparseable date (JS `NaN` compares false both ways) is `none`. -/

/-- The date-range decision of `validateCaseDate`: `false` on a missing or
unparseable filed date, otherwise the inclusive bound comparison. -/
def validateCaseDate (dateFiled : Option Int) (startDate endDate : Int) : Bool :=
  match dateFiled with
  | none => false
  | some filed => decide (startDate ≤ filed) && decide (filed ≤ endDate)

/-! ## Listing Scanner loops

`crawlCases` (crawler.js lines 634-669) and the open-case branch of
`searchCasesByDescription` (part_003 lines 1294-1318) run the same loop:
per matched case, navigate to the detail page and check the date; an
invalid date increments `consecutiveInvalidDates` and the view stops when
it reaches `MAX_CONSECUTIVE_INVALID = 5`; a valid date resets the counter;
an error thrown while processing the case is caught and changes nothing.

The closed-case branch of `searchCasesByDescription` (part_003 lines
1249-1292) instead re-reads the filed date on an invalid check: a date
after the range end increments `consecutiveTooNew` (stop at 5), a date at
or before the range end resets it to 0, and a missing date leaves it
unchanged. -/

/-- Per-case outcome of the detail-page date check in the open-case loop. -/
inductive ScanOutcome
  | err
  | miss
  | hit
deriving DecidableEq, Repr

/-- Threshold `MAX_CONSECUTIVE_INVALID` / `MAX_CONSECUTIVE_TOO_NEW`. -/
def MAX_CONSECUTIVE_INVALID : Nat := 5

/-- The open-case scanning loop of `crawlCases` /
`searchCasesByDescription`, returning the list of cases actually
evaluated (in order) before the loop stops. -/
def crawlScanVisited (counter : Nat) : List ScanOutcome → List ScanOutcome
  | [] => []
  | o :: rest =>
    match o with
    | ScanOutcome.err => ScanOutcome.err :: crawlScanVisited counter rest
    | ScanOutcome.hit => ScanOutcome.hit :: crawlScanVisited 0 rest
    | ScanOutcome.miss =>
      if MAX_CONSECUTIVE_INVALID ≤ counter + 1 then [ScanOutcome.miss]
      else ScanOutcome.miss :: crawlScanVisited (counter + 1) rest

/-- Per-case outcome of the date check in the closed-case loop of
`searchCasesByDescription`. -/
inductive ClosedOutcome
  | err
  | hit
  | tooNew
  | tooOld
  | noDate
deriving DecidableEq, Repr

/-- The closed-case scanning loop of `searchCasesByDescription`,
returning the list of cases actually evaluated before the loop stops. -/
def closedScanVisited (counter : Nat) : List ClosedOutcome → List ClosedOutcome
  | [] => []
  | o :: rest =>
    match o with
    | ClosedOutcome.err => ClosedOutcome.err :: closedScanVisited counter rest
    | ClosedOutcome.hit => ClosedOutcome.hit :: closedScanVisited 0 rest
    | ClosedOutcome.tooOld => ClosedOutcome.tooOld :: closedScanVisited 0 rest
    | ClosedOutcome.noDate => ClosedOutcome.noDate :: closedScanVisited counter rest
    | ClosedOutcome.tooNew =>
      if MAX_CONSECUTIVE_INVALID ≤ counter + 1 then [ClosedOutcome.tooNew]
      else ClosedOutcome.tooNew :: closedScanVisited (counter + 1) rest

/-- The visited list respects the miss budget: starting from a running
count of `n` misses since the last hit, every further miss keeps the
running count at or below 5.  Errors do not touch the count; hits reset
it. -/
def missBudget (n : Nat) : List ScanOutcome → Prop
  | [] => True
  | ScanOutcome.err :: rest => missBudget n rest
  | ScanOutcome.hit :: rest => missBudget 0 rest
  | ScanOutcome.miss :: rest => n + 1 ≤ 5 ∧ missBudget (n + 1) rest

/-- Budget on consecutive too-new cases for the closed-case loop: hits and
too-old cases reset the running count, errors and missing dates leave it
unchanged. -/
def tooNewBudget (n : Nat) : List ClosedOutcome → Prop
  | [] => True
  | ClosedOutcome.err :: rest => tooNewBudget n rest
  | ClosedOutcome.hit :: rest => tooNewBudget 0 rest
  | ClosedOutcome.tooOld :: rest => tooNewBudget 0 rest
  | ClosedOutcome.noDate :: rest => tooNewBudget n rest
  | ClosedOutcome.tooNew :: rest => n + 1 ≤ 5 ∧ tooNewBudget (n + 1) rest

theorem crawlScanVisited_missBudget (l : List ScanOutcome) :
    ∀ n, n ≤ 4 → missBudget n (crawlScanVisited n l) := by
  induction l with
  | nil => intro n _; simp [crawlScanVisited, missBudget]
  | cons o rest ih =>
    intro n hn
    cases o with
    | err => simpa [crawlScanVisited, missBudget] using ih n hn
    | hit => simpa [crawlScanVisited, missBudget] using ih 0 (by omega)
    | miss =>
      by_cases h : MAX_CONSECUTIVE_INVALID ≤ n + 1
      · simp only [crawlScanVisited, h, if_pos]
        simp only [missBudget]
        exact ⟨by omega, trivial⟩
      · simp only [crawlScanVisited, h, if_neg, not_false_iff]
        simp only [missBudget]
        refine ⟨by omega, ih (n + 1) ?_⟩
        simp [MAX_CONSECUTIVE_INVALID] at h
        omega

theorem closedScanVisited_tooNewBudget (l : List ClosedOutcome) :
    ∀ n, n ≤ 4 → tooNewBudget n (closedScanVisited n l) := by
  induction l with
  | nil => intro n _; simp [closedScanVisited, tooNewBudget]
  | cons o rest ih =>
    intro n hn
    cases o with
    | err => simpa [closedScanVisited, tooNewBudget] using ih n hn
    | hit => simpa [closedScanVisited, tooNewBudget] using ih 0 (by omega)
    | tooOld => simpa [closedScanVisited, tooNewBudget] using ih 0 (by omega)
    | noDate => simpa [closedScanVisited, tooNewBudget] using ih n hn
    | tooNew =>
      by_cases h : MAX_CONSECUTIVE_INVALID ≤ n + 1
      · simp only [closedScanVisited, h, if_pos]
        simp only [tooNewBudget]
        exact ⟨by omega, trivial⟩
      · simp only [closedScanVisited, h, if_neg, not_false_iff]
        simp only [tooNewBudget]
        refine ⟨by omega, ih (n + 1) ?_⟩
        simp [MAX_CONSECUTIVE_INVALID] at h
        omega

/-- Claim C1: the closed-case branch of `searchCasesByDescription` refutes
the claim as stated: six consecutive out-of-range (too-old) cases are all
evaluated, the view is not stopped after 5 consecutive non-matching date
checks, and the in-range case after them IS reached, because a too-old
miss resets `consecutiveTooNew` to 0 instead of incrementing it. -/
theorem c1_counterexample :
    closedScanVisited 0 (List.replicate 6 ClosedOutcome.tooOld ++ [ClosedOutcome.hit]) =
      List.replicate 6 ClosedOutcome.tooOld ++ [ClosedOutcome.hit] ∧
    ClosedOutcome.hit ∈
      closedScanVisited 0 (List.replicate 6 ClosedOutcome.tooOld ++ [ClosedOutcome.hit]) := by
  decide

/-- Claim C1 (amended): in `crawlCases` and in the open-case branch of
`searchCasesByDescription`, the consecutive-miss counter is incremented on
each non-matching date check, reset on a hit, and stops the view at the
threshold 5, so at most 5 consecutive misses are ever evaluated and the
spec's synthetic listing of 6 out-of-range cases followed by an in-range
case stops after the first 5 misses; detail-page errors leave the counter
unchanged in both loops.  In the closed-case branch of
`searchCasesByDescription` only consecutive too-new cases are counted
(too-old misses reset the counter, missing dates leave it unchanged), so
only a run of 5 too-new cases stops that view. -/
theorem c1_amended_scan_budget :
    (∀ l : List ScanOutcome, missBudget 0 (crawlScanVisited 0 l)) ∧
    (∀ (n : Nat) (r : List ScanOutcome),
      crawlScanVisited n (ScanOutcome.err :: r) = ScanOutcome.err :: crawlScanVisited n r) ∧
    (∀ (n : Nat) (r : List ClosedOutcome),
      closedScanVisited n (ClosedOutcome.err :: r) = ClosedOutcome.err :: closedScanVisited n r) ∧
    crawlScanVisited 0 (List.replicate 6 ScanOutcome.miss ++ [ScanOutcome.hit]) =
      List.replicate 5 ScanOutcome.miss ∧
    (∀ l : List ClosedOutcome, tooNewBudget 0 (closedScanVisited 0 l)) :=
  ⟨fun l => crawlScanVisited_missBudget l 0 (by omega),
   fun _ _ => rfl,
   fun _ _ => rfl,
   by decide,
   fun l => closedScanVisited_tooNewBudget l 0 (by omega)⟩

/-! ## Case Matcher: `matchesQuery`

crawler.js lines 71-83 require every query term (of length > 2) to occur
in the company field, or every term in the description field (the
whole-query `includes` alternative is subsumed, as proved below).
part_003 lines 265-281 canonicalise plural forms in the query and then
accept the case as soon as ANY single core term occurs in the company or
the description. -/

/-- The whitespace-split query terms of length > 2 used by
`matchesQuery` in crawler.js (`query.split(' ').filter(t => t.length > 2)`
on the lowercased query). -/
def queryTerms (userQuery : List Char) : List (List Char) :=
  (splitOnChar ' ' (toLowerStr userQuery)).filter (fun t => 2 < t.length)

/-- `matchesQuery` from crawler.js lines 71-83. -/
def matchesQuery (caseCompany caseDescription userQuery : List Char) : Bool :=
  let query := toLowerStr userQuery
  let company := toLowerStr caseCompany
  let description := toLowerStr caseDescription
  let terms := queryTerms userQuery
  ((terms.all fun t => jsIncludes company t) || jsIncludes company query) ||
  ((terms.all fun t => jsIncludes description t) || jsIncludes description query)

/-- Model of JS `\w` (word character) for `\b` word boundaries. -/
def isWordChar (c : Char) : Bool :=
  ('a' ≤ c && c ≤ 'z') || ('A' ≤ c && c ≤ 'Z') || ('0' ≤ c && c ≤ '9') || c = '_'

/-- A `\b` boundary holds before a word-character pattern iff the previous
character is absent or not a word character. -/
def wordBoundaryBefore : Option Char → Bool
  | none => true
  | some pc => !isWordChar pc

/-- A `\b` boundary holds after a word-character pattern iff the next
character is absent or not a word character. -/
def wordBoundaryAfter : List Char → Bool
  | [] => true
  | c :: _ => !isWordChar c

/-- Scanner for `str.replace(/\bpat\b/g, repl)` with a literal,
word-delimited pattern: leftmost non-overlapping matches, continuing
after each match.  Each step consumes at least one character, so fuel
`l.length + 1` never runs out. -/
def replaceAllWordAux (pat repl : List Char) : Nat → Option Char → List Char → List Char
  | 0, _, l => l
  | _ + 1, _, [] => []
  | fuel + 1, prev, c :: rest =>
    if wordBoundaryBefore prev && pat.isPrefixOf (c :: rest) &&
        wordBoundaryAfter ((c :: rest).drop pat.length) then
      repl ++ replaceAllWordAux pat repl fuel pat.getLast? ((c :: rest).drop pat.length)
    else
      c :: replaceAllWordAux pat repl fuel (some c) rest

/-- Model of `str.replace(/\bpat\b/g, repl)` for the literal patterns used
by `matchesQuery` / `preprocessQuery` in part_003. -/
def replaceAllWord (pat repl l : List Char) : List Char :=
  match pat with
  | [] => l
  | _ :: _ => replaceAllWordAux pat repl (l.length + 1) none l

/-- The canonicalised core terms of `matchesQuery` from part_003: plural
forms are rewritten first, then the query is split on spaces and terms of
length ≤ 2 are dropped. -/
def p3CoreTerms (userQuery : List Char) : List (List Char) :=
  let query := toLowerStr userQuery
  let q1 := replaceAllWord "rate cases".data "rate".data query
  let q2 := replaceAllWord "general rate cases".data "rate".data q1
  let q3 := replaceAllWord "cases".data "case".data q2
  (splitOnChar ' ' q3).filter (fun t => 2 < t.length)

/-- `matchesQuery` from part_003 lines 265-281: `coreTerms.some(...)` on
the company field or on the description field. -/
def p3MatchesQuery (caseCompany caseDescription userQuery : List Char) : Bool :=
  let company := toLowerStr caseCompany
  let description := toLowerStr caseDescription
  let coreTerms := p3CoreTerms userQuery
  (coreTerms.any fun t => jsIncludes company t) ||
  (coreTerms.any fun t => jsIncludes description t)

theorem splitOnChar_spec (sep : Char) (l : List Char) :
    ∃ w ws, splitOnChar sep l = w :: ws ∧ w <+: l ∧ ∀ t ∈ ws, t <:+: l := by
  induction l with
  | nil => exact ⟨[], [], rfl, List.nil_prefix, by simp⟩
  | cons c rest ih =>
    obtain ⟨w, ws, hs, hw, hws⟩ := ih
    by_cases hc : c = sep
    · refine ⟨[], w :: ws, by simp [splitOnChar, hc, hs], List.nil_prefix, ?_⟩
      intro t ht
      rcases List.mem_cons.mp ht with h | h
      · exact h ▸ List.infix_cons (List.IsPrefix.isInfix hw)
      · exact List.infix_cons (hws t h)
    · refine ⟨c :: w, ws, by simp [splitOnChar, hc, hs], ?_, ?_⟩
      · exact List.cons_prefix_cons.mpr ⟨rfl, hw⟩
      · exact fun t ht => List.infix_cons (hws t ht)

theorem splitOnChar_mem_within {sep : Char} {t l : List Char}
    (h : t ∈ splitOnChar sep l) : t <:+: l := by
  obtain ⟨w, ws, hs, hw, hws⟩ := splitOnChar_spec sep l
  rw [hs] at h
  rcases List.mem_cons.mp h with h | h
  · exact h ▸ List.IsPrefix.isInfix hw
  · exact hws t h

/-- Claim C2 counterexample: for the part_003 `matchesQuery`, a query of
five terms of which only one ("solar") occurs in the company field (and
none in the description) is accepted, so the function does not require
all, nor any substantial fraction, of the terms to occur. -/
theorem c2_counterexample :
    p3MatchesQuery "big solar company".data "".data
        "solar wind hydro coal geothermal".data = true ∧
    ((p3CoreTerms "solar wind hydro coal geothermal".data).filter
        (fun t => jsIncludes (toLowerStr "big solar company".data) t ||
          jsIncludes (toLowerStr "".data) t)).length = 1 ∧
    (p3CoreTerms "solar wind hydro coal geothermal".data).length = 5 := by
  decide

/-- Claim C2 (amended): both matchers tokenise the query into
whitespace-separated terms of length > 2 and test case-insensitive
substring containment, but the crawler.js variant returns true exactly
when every term occurs in the company field or every term occurs in the
description field, while the part_003 variant (after canonicalising
plural forms) returns true exactly when at least one core term occurs in
the company field or the description field. -/
theorem c2_amended_matches_characterisation :
    ∀ caseCompany caseDescription userQuery : List Char,
      (matchesQuery caseCompany caseDescription userQuery = true ↔
        ((∀ t ∈ queryTerms userQuery, t <:+: toLowerStr caseCompany) ∨
         (∀ t ∈ queryTerms userQuery, t <:+: toLowerStr caseDescription))) ∧
      (p3MatchesQuery caseCompany caseDescription userQuery = true ↔
        (∃ t ∈ p3CoreTerms userQuery,
          t <:+: toLowerStr caseCompany ∨ t <:+: toLowerStr caseDescription)) := by
  intro caseCompany caseDescription userQuery
  have key : ∀ s : List Char, toLowerStr userQuery <:+: s →
      ∀ t ∈ queryTerms userQuery, t <:+: s := by
    intro s hq t ht
    exact List.IsInfix.trans (splitOnChar_mem_within (List.mem_of_mem_filter ht)) hq
  constructor
  · simp only [matchesQuery, Bool.or_eq_true, List.all_eq_true, jsIncludes,
      decide_eq_true_iff]
    constructor
    · rintro ((h | h) | (h | h))
      · exact Or.inl h
      · exact Or.inl (key _ h)
      · exact Or.inr h
      · exact Or.inr (key _ h)
    · rintro (h | h)
      · exact Or.inl (Or.inl h)
      · exact Or.inr (Or.inl h)
  · simp only [p3MatchesQuery, Bool.or_eq_true, List.any_eq_true, jsIncludes,
      decide_eq_true_iff]
    constructor
    · rintro (⟨t, ht, h⟩ | ⟨t, ht, h⟩)
      exacts [⟨t, ht, Or.inl h⟩, ⟨t, ht, Or.inr h⟩]
    · rintro ⟨t, ht, h | h⟩
      exacts [Or.inl ⟨t, ht, h⟩, Or.inr ⟨t, ht, h⟩]

/-- Claim C3: `validateCaseDate` is inclusive at both boundaries (a case
filed exactly on the start or the end of the range matches) and returns
`false`, rather than raising an error, on a missing or unparseable filed
date. -/
theorem c3_validateCaseDate_inclusive (startDate endDate d : Int) :
    validateCaseDate none startDate endDate = false ∧
    (validateCaseDate (some d) startDate endDate = true ↔
      startDate ≤ d ∧ d ≤ endDate) ∧
    (startDate ≤ endDate →
      validateCaseDate (some startDate) startDate endDate = true ∧
      validateCaseDate (some endDate) startDate endDate = true) := by
  refine ⟨rfl, by simp [validateCaseDate], fun h => ?_⟩
  simp [validateCaseDate, h]

theorem c3_validateCaseDate_inclusive_witness :
    validateCaseDate (some 100) 100 200 = true ∧
    validateCaseDate (some 200) 100 200 = true :=
  (c3_validateCaseDate_inclusive 100 200 0).2.2 (by decide)

/-! ## Chunk Indexer (processor.js lines 120-282, part_004 lines 122-212)

`DocumentProcessor` holds `chunkSize = 1500`, `chunkOverlap = 200`,
`minChunkSize = 300`, `maxChunksPerDoc = 1000`; `processExtractedDocuments`
may override the first three through `options`. -/

structure ChunkCfg where
  chunkSize : Nat
  chunkOverlap : Nat
  minChunkSize : Nat
  maxChunksPerDoc : Nat
deriving DecidableEq

/-- The constructor defaults of `DocumentProcessor`. -/
def defaultChunkCfg : ChunkCfg :=
  { chunkSize := 1500, chunkOverlap := 200, minChunkSize := 300, maxChunksPerDoc := 1000 }

/-- The document-metadata fields that `generateChunkId` reads. -/
structure DocMeta where
  caseNumber : List Char
  filename : List Char
deriving DecidableEq

/-- A produced chunk, restricted to the fields the claims are about
(`createChunk` additionally copies source-attribution metadata and a
citation object verbatim from `documentMetadata`). -/
structure Chunk where
  id : List Char
  content : List Char
  pageNumber : Option Nat
  chunkIndex : Nat
deriving DecidableEq

/-- The template string
`${caseNumber}_${filename}_${pageNumber || 'doc'}_${chunkIndex}` hashed by
`generateChunkId`.  JS `||` is falsy-based, so page number 0 (like `null`)
yields `'doc'`. -/
def chunkIdSource (md : DocMeta) (pageNumber : Option Nat) (chunkIndex : Nat) : List Char :=
  md.caseNumber ++ '_' :: md.filename ++ '_' ::
    (match pageNumber with
      | some n => if n = 0 then "doc".data else (Nat.repr n).data
      | none => "doc".data) ++ '_' :: (Nat.repr chunkIndex).data

/-- Model of Node's `crypto` md5-hex digest truncated to 12 characters (an
external library, not repository code).  It is modelled as the identity on
the source string: every theorem below depends only on the digest being a
fixed deterministic function of that string, never on injectivity or any
other md5-specific property. -/
def md5Hex12 (s : List Char) : List Char := s

/-- `generateChunkId` (processor.js lines 279-282, part_004 lines 440-443). -/
def generateChunkId (md : DocMeta) (pageNumber : Option Nat) (chunkIndex : Nat) : List Char :=
  md5Hex12 (chunkIdSource md pageNumber chunkIndex)

/-- `createChunk`, restricted to the claim-relevant fields. -/
def createChunk (md : DocMeta) (content : List Char) (pageNumber : Option Nat)
    (chunkIndex : Nat) : Chunk :=
  { id := generateChunkId md pageNumber chunkIndex
    content := content
    pageNumber := pageNumber
    chunkIndex := chunkIndex }

/-- Flush a pending run (accumulated in reverse) of separator characters:
runs of at least `minRun` characters are replaced by `repl`, shorter runs
are kept verbatim. -/
def flushRun (minRun : Nat) (repl run : List Char) : List Char :=
  if run.isEmpty then [] else if minRun ≤ run.length then repl else run.reverse

/-- Scanner for `text.replace(/p{minRun,}/g, repl)` where `p` is a
character class: maximal runs of `p`-characters of length ≥ `minRun` are
replaced, everything else is kept. -/
def collapseRunsGo (p : Char → Bool) (minRun : Nat) (repl : List Char) :
    List Char → List Char → List Char
  | run, [] => flushRun minRun repl run
  | run, c :: rest =>
    if p c then collapseRunsGo p minRun repl (c :: run) rest
    else flushRun minRun repl run ++ c :: collapseRunsGo p minRun repl [] rest

def collapseRuns (p : Char → Bool) (minRun : Nat) (repl l : List Char) : List Char :=
  collapseRunsGo p minRun repl [] l

/-- `cleanText`: `replace(/\s{3,}/g, ' ')`, then `replace(/\n{3,}/g, '\n\n')`
(a no-op after the first pass, kept for faithfulness), then `trim()`. -/
def cleanText (text : List Char) : List Char :=
  jsTrim (collapseRuns (fun c => c = '\n') 3 "\n\n".data
    (collapseRuns jsWhitespace 3 " ".data text))

def isDigitChar (c : Char) : Bool := '0' ≤ c && c ≤ '9'

/-- Decimal value of a digit run (JS `parseInt`). -/
def digitsVal (ds : List Char) : Nat :=
  ds.foldl (fun a c => a * 10 + (c.toNat - '0'.toNat)) 0

/-- Match the page-delimiter regex `--- PAGE \d+ ---` at the head of `l`:
on success return the page number and the remainder after the match.  The
greedy `\d+` takes the maximal digit run (a digit run cannot be followed by
a digit, so no backtracking arises). -/
def matchMarkerAt (l : List Char) : Option (Nat × List Char) :=
  if "--- PAGE ".data.isPrefixOf l then
    let after := l.drop 9
    let ds := after.takeWhile isDigitChar
    if ds.isEmpty then none
    else if " ---".data.isPrefixOf (after.drop ds.length) then
      some (digitsVal ds, (after.drop ds.length).drop 4)
    else none
  else none

/-- Find the leftmost page-delimiter match: returns the text before the
match, the page number, and the text after the match. -/
def findMarker : List Char → Option (List Char × Nat × List Char)
  | [] => none
  | c :: rest =>
    match matchMarkerAt (c :: rest) with
    | some (n, after) => some ([], n, after)
    | none =>
      match findMarker rest with
      | some (pre, n, after) => some (c :: pre, n, after)
      | none => none

/-- `text.split(/--- PAGE \d+ ---/)` paired with
`[...text.matchAll(/--- PAGE (\d+) ---/g)]`: the list of segments between
matches and the list of matched page numbers.  Every match consumes at
least 14 characters, so fuel `l.length + 1` never runs out. -/
def splitMarkersF : Nat → List Char → List (List Char) × List Nat
  | 0, l => ([l], [])
  | fuel + 1, l =>
    match findMarker l with
    | none => ([l], [])
    | some (pre, n, after) =>
      let rest := splitMarkersF fuel after
      (pre :: rest.1, n :: rest.2)

def splitMarkers (l : List Char) : List (List Char) × List Nat :=
  splitMarkersF (l.length + 1) l

/-- `extractPages` (processor.js lines 146-170, part_004 lines 142-166):
segments after the first are paired with the matched page numbers (the
counts always agree, so the `pageNumbers[i-1] ? ... : i` fallback never
fires), trimmed, and kept only when strictly longer than `minChunkSize`. -/
def extractPages (cfg : ChunkCfg) (text : List Char) : List (Nat × List Char) :=
  let pm := splitMarkers text
  if pm.1.length ≤ 1 then []
  else
    (pm.2.zip (pm.1.drop 1)).filterMap fun pr =>
      let content := jsTrim pr.2
      if cfg.minChunkSize < content.length then some (pr.1, content) else none

/-- One iteration's `chunkText`: the window
`text.substring(start, min(start + chunkSize, text.length))`, truncated at
the latest sentence (`'. '`) or paragraph (`'\n\n'`) break when one lies
late enough — `breakPoint > start + this.chunkSize * 0.7`; for the default
chunkSize 1500 the JS float product `1500 * 0.7` rounds to exactly 1050,
which the integer floor division reproduces.  (Note the source compares
the window-relative `breakPoint` against the absolute `start + 1050`,
faithfully kept.)  No truncation is attempted on the final window. -/
def windowText (cfg : ChunkCfg) (text : List Char) (start : Nat) : List Char :=
  let endPos := min (start + cfg.chunkSize) text.length
  let window := (text.drop start).take (endPos - start)
  if endPos < text.length then
    let breakPoint :=
      max (jsLastIndexOf window ". ".data) (jsLastIndexOf window "\n\n".data)
    if (start : Int) + (7 * (cfg.chunkSize : Int)) / 10 < breakPoint then
      window.take (breakPoint.toNat + 1)
    else window
  else window

/-- The `while` loop of `createChunksFromText`.  One fuel unit is spent
per iteration; every iteration advances `start` by at least 100, so with
fuel `text.length + 1` (used below) the fuel never runs out and the
recursion is exactly the source loop.  JS `advancement <= 0` cannot occur
(the advancement is clamped to at least 100), so only the
`start >= text.length` break is modelled. -/
def chunkLoopF (cfg : ChunkCfg) (md : DocMeta) (text : List Char) (page : Option Nat) :
    Nat → Nat → Nat → List Chunk
  | 0, _, _ => []
  | fuel + 1, start, chunkIndex =>
    if start < text.length ∧ chunkIndex ≤ cfg.maxChunksPerDoc then
      let chunkText := windowText cfg text start
      let trimmed := jsTrim chunkText
      let adv := max (chunkText.length - cfg.chunkOverlap) 100
      let rest :=
        if text.length ≤ start + adv then []
        else
          chunkLoopF cfg md text page fuel (start + adv)
            (if cfg.minChunkSize ≤ trimmed.length then chunkIndex + 1 else chunkIndex)
      if cfg.minChunkSize ≤ trimmed.length then
        createChunk md trimmed page chunkIndex :: rest
      else rest
    else []

/-- `createChunksFromText` (processor.js lines 175-217, part_004 lines
171-213): a text no longer than `chunkSize` becomes one chunk verbatim;
otherwise the sliding-window loop runs from `start = 0`, `chunkIndex = 1`. -/
def createChunksFromText (cfg : ChunkCfg) (md : DocMeta) (text : List Char)
    (page : Option Nat) : List Chunk :=
  if text.length ≤ cfg.chunkSize then [createChunk md text page 1]
  else chunkLoopF cfg md text page (text.length + 1) 0 1

/-- `createChunks` (processor.js lines 120-143): clean the text, extract
pages; with no extracted pages the whole text is chunked as a single
page-less unit, otherwise each page is chunked independently. -/
def createChunks (cfg : ChunkCfg) (md : DocMeta) (text : List Char) : List Chunk :=
  let cleanedText := cleanText text
  let pages := extractPages cfg cleanedText
  if pages.isEmpty then createChunksFromText cfg md cleanedText none
  else (pages.map fun pr => createChunksFromText cfg md pr.2 (some pr.1)).flatten

/-- `createChunks` from part_004 lines 122-139: identical except that the
single-unit fallback also fires when exactly one page was extracted
(`pages.length <= 1`). -/
def createChunksP4 (cfg : ChunkCfg) (md : DocMeta) (text : List Char) : List Chunk :=
  let cleanedText := cleanText text
  let pages := extractPages cfg cleanedText
  if pages.length ≤ 1 then createChunksFromText cfg md cleanedText none
  else (pages.map fun pr => createChunksFromText cfg md pr.2 (some pr.1)).flatten

/-- Definition taken from the spec's words (for claim C4, to be compared
with the code): rebuild a text from chunk contents by keeping the first
chunk whole and dropping the leading `overlap` characters of each later
chunk. -/
def reconstructFromChunks (overlap : Nat) : List (List Char) → List Char
  | [] => []
  | c :: cs => c ++ (cs.map fun c2 => c2.drop overlap).flatten

/-- Shared sample document metadata for the concrete instantiations. -/
def sampleMeta : DocMeta :=
  { caseNumber := "IPC-E-24-01".data, filename := "IPC-E-24-01_doc.txt".data }

theorem drop_take_within (text : List Char) (a b : Nat) : (text.drop a).take b <:+: text :=
  List.IsInfix.trans (List.IsPrefix.isInfix ( List.take_prefix b (text.drop a)))
    (List.IsSuffix.isInfix (List.drop_suffix a text))

theorem jsTrim_within (l : List Char) : jsTrim l <:+: l := by
  have h1 : l.dropWhile jsWhitespace <:+ l := List.dropWhile_suffix _
  have h2 : (l.dropWhile jsWhitespace).reverse.dropWhile jsWhitespace <:+
      (l.dropWhile jsWhitespace).reverse := List.dropWhile_suffix _
  have h3 : ((l.dropWhile jsWhitespace).reverse.dropWhile jsWhitespace).reverse <+:
      l.dropWhile jsWhitespace := by
    rw [← List.reverse_suffix]
    simpa using h2
  exact List.IsInfix.trans (List.IsPrefix.isInfix h3) (List.IsSuffix.isInfix h1)

theorem windowText_within (cfg : ChunkCfg) (text : List Char) (start : Nat) :
    windowText cfg text start <:+: text := by
  simp only [windowText]
  split
  · split
    · exact List.IsInfix.trans (List.IsPrefix.isInfix ( List.take_prefix _ _))
        (drop_take_within text start _)
    · exact drop_take_within text start _
  · exact drop_take_within text start _

theorem chunkLoopF_mem (cfg : ChunkCfg) (md : DocMeta) (text : List Char) (page : Option Nat) :
    ∀ (fuel start idx : Nat), ∀ c ∈ chunkLoopF cfg md text page fuel start idx,
      c.pageNumber = page ∧ c.id = generateChunkId md page c.chunkIndex ∧
        c.content <:+: text := by
  intro fuel
  induction fuel with
  | zero => intro start idx c hc; simp [chunkLoopF] at hc
  | succ fuel ih =>
    intro start idx c hc
    simp only [chunkLoopF] at hc
    by_cases hcond : start < text.length ∧ idx ≤ cfg.maxChunksPerDoc
    · rw [if_pos hcond] at hc
      split at hc
      · rcases List.mem_cons.mp hc with rfl | hrest
        · exact ⟨rfl, rfl,
            List.IsInfix.trans (jsTrim_within _) (windowText_within cfg text start)⟩
        · split at hrest
          · simp at hrest
          · exact ih _ _ c hrest
      · split at hc
        · simp at hc
        · exact ih _ _ c hc
    · rw [if_neg hcond] at hc
      simp at hc

theorem createChunksFromText_mem (cfg : ChunkCfg) (md : DocMeta) (text : List Char)
    (page : Option Nat) :
    ∀ c ∈ createChunksFromText cfg md text page,
      c.pageNumber = page ∧ c.id = generateChunkId md page c.chunkIndex ∧
        c.content <:+: text := by
  intro c hc
  unfold createChunksFromText at hc
  split at hc
  · simp only [List.mem_singleton] at hc
    subst hc
    exact ⟨rfl, rfl, List.infix_refl text⟩
  · exact chunkLoopF_mem cfg md text page _ _ _ c hc

/-- Concrete text for claim C4: 1501 identical characters, one more than
the chunk size. -/
def c4Text : List Char := List.replicate 1501 'a'

set_option maxRecDepth 200000 in
/-- Claim C4 counterexample: on a 1501-character text the loop emits a
single 1500-character chunk (the trailing windows trim to fewer than
`minChunkSize` characters and are dropped), so removing overlaps and
concatenating reconstructs only 1500 of the original 1501 characters. -/
theorem c4_counterexample :
    ((createChunksFromText defaultChunkCfg sampleMeta c4Text none).map Chunk.content).length
        = 1 ∧
    reconstructFromChunks defaultChunkCfg.chunkOverlap
        ((createChunksFromText defaultChunkCfg sampleMeta c4Text none).map Chunk.content)
      ≠ c4Text := by
  refine ⟨by decide, fun h => ?_⟩
  have hl := congrArg List.length h
  revert hl
  decide

/-- Claim C4 (amended): a page text no longer than `chunkSize` is emitted
as a single verbatim chunk, so concatenation reconstructs it exactly; in
general every chunk's content is a contiguous substring of the page text,
but trimming and the dropping of fragments shorter than `minChunkSize`
make the overlap-removal round trip lossy. -/
theorem c4_amended_chunks_substring (cfg : ChunkCfg) (md : DocMeta) (text : List Char)
    (page : Option Nat) :
    (text.length ≤ cfg.chunkSize →
      createChunksFromText cfg md text page = [createChunk md text page 1]) ∧
    (∀ c ∈ createChunksFromText cfg md text page, c.content <:+: text) := by
  constructor
  · intro h
    simp [createChunksFromText, h]
  · intro c hc
    exact (createChunksFromText_mem cfg md text page c hc).2.2

theorem c4_amended_chunks_substring_witness :
    ("general rate case".data.length ≤ defaultChunkCfg.chunkSize) ∧
    createChunksFromText defaultChunkCfg sampleMeta "general rate case".data none =
      [createChunk sampleMeta "general rate case".data none 1] :=
  ⟨by decide,
   (c4_amended_chunks_substring defaultChunkCfg sampleMeta "general rate case".data none).1
     (by decide)⟩

/-- Concrete text for claim C7: two page delimiters whose page bodies are
shorter than `minChunkSize`. -/
def c7Text : List Char := "--- PAGE 1 ---aaa--- PAGE 2 ---bbb".data

set_option maxRecDepth 200000 in
/-- Claim C7 counterexample: this text contains two page delimiters
(`splitMarkers` finds pages 1 and 2), yet because both page bodies trim to
at most `minChunkSize` characters `extractPages` keeps none of them, and
`createChunks` falls through to the single-unit path: the one produced
chunk carries a null page number and its content is the whole text —
page delimiters included — so it spans a page boundary. -/
theorem c7_counterexample :
    (splitMarkers (cleanText c7Text)).2 = [1, 2] ∧
    (createChunks defaultChunkCfg sampleMeta c7Text).map (fun c => c.pageNumber) = [none] ∧
    (createChunks defaultChunkCfg sampleMeta c7Text).map Chunk.content = [cleanText c7Text] ∧
    jsIncludes (cleanText c7Text) "--- PAGE 2 ---".data = true := by
  decide

/-- Claim C7 (amended): when `extractPages` keeps no page (either no
delimiter occurs or every delimited page trims to at most `minChunkSize`
characters) the whole cleaned text is chunked as one unit and every chunk
carries a null page number; when `extractPages` keeps at least one page,
every chunk comes from exactly one kept page: it carries that page's
number and its content is a contiguous substring of that page's text, so
no chunk spans a page boundary.  The part_004 variant behaves the same
except that its single-unit fallback also fires when exactly one page was
kept. -/
theorem c7_amended_page_isolation (cfg : ChunkCfg) (md : DocMeta) (text : List Char) :
    (extractPages cfg (cleanText text) = [] →
      createChunks cfg md text = createChunksFromText cfg md (cleanText text) none ∧
      ∀ c ∈ createChunks cfg md text, c.pageNumber = none) ∧
    (extractPages cfg (cleanText text) ≠ [] →
      ∀ c ∈ createChunks cfg md text,
        ∃ pr ∈ extractPages cfg (cleanText text),
          c.pageNumber = some pr.1 ∧ c.content <:+: pr.2) ∧
    ((extractPages cfg (cleanText text)).length ≤ 1 →
      createChunksP4 cfg md text = createChunksFromText cfg md (cleanText text) none ∧
      ∀ c ∈ createChunksP4 cfg md text, c.pageNumber = none) ∧
    (1 < (extractPages cfg (cleanText text)).length →
      ∀ c ∈ createChunksP4 cfg md text,
        ∃ pr ∈ extractPages cfg (cleanText text),
          c.pageNumber = some pr.1 ∧ c.content <:+: pr.2) := by
  refine ⟨fun h => ?_, fun h => ?_, fun h => ?_, fun h => ?_⟩
  · have he : createChunks cfg md text = createChunksFromText cfg md (cleanText text) none := by
      simp [createChunks, h]
    refine ⟨he, fun c hc => ?_⟩
    rw [he] at hc
    exact (createChunksFromText_mem cfg md (cleanText text) none c hc).1
  · intro c hc
    have hne : ((extractPages cfg (cleanText text)).isEmpty) = false := by
      simpa [List.isEmpty_iff] using h
    have he : createChunks cfg md text =
        ((extractPages cfg (cleanText text)).map
          fun pr => createChunksFromText cfg md pr.2 (some pr.1)).flatten := by
      simp [createChunks, hne]
    rw [he] at hc
    obtain ⟨l, hl, hcl⟩ := List.mem_flatten.mp hc
    obtain ⟨pr, hpr, rfl⟩ := List.mem_map.mp hl
    obtain ⟨h1, _, h3⟩ := createChunksFromText_mem cfg md pr.2 (some pr.1) c hcl
    exact ⟨pr, hpr, h1, h3⟩
  · have he : createChunksP4 cfg md text = createChunksFromText cfg md (cleanText text) none := by
      simp [createChunksP4, h]
    refine ⟨he, fun c hc => ?_⟩
    rw [he] at hc
    exact (createChunksFromText_mem cfg md (cleanText text) none c hc).1
  · intro c hc
    have hn : ¬ ((extractPages cfg (cleanText text)).length ≤ 1) := by omega
    have he : createChunksP4 cfg md text =
        ((extractPages cfg (cleanText text)).map
          fun pr => createChunksFromText cfg md pr.2 (some pr.1)).flatten := by
      simp [createChunksP4, hn]
    rw [he] at hc
    obtain ⟨l, hl, hcl⟩ := List.mem_flatten.mp hc
    obtain ⟨pr, hpr, rfl⟩ := List.mem_map.mp hl
    obtain ⟨h1, _, h3⟩ := createChunksFromText_mem cfg md pr.2 (some pr.1) c hcl
    exact ⟨pr, hpr, h1, h3⟩

/-- Concrete text for the C7 witness: two delimited pages, each longer
than `minChunkSize` after trimming. -/
def c7wText : List Char :=
  "--- PAGE 1 ---".data ++ List.replicate 301 'a' ++
    "--- PAGE 2 ---".data ++ List.replicate 301 'b'

set_option maxRecDepth 200000 in
theorem c7_amended_page_isolation_witness :
    ∃ pr ∈ extractPages defaultChunkCfg (cleanText c7wText),
      (createChunk sampleMeta (List.replicate 301 'a') (some 1) 1).pageNumber = some pr.1 ∧
      (createChunk sampleMeta (List.replicate 301 'a') (some 1) 1).content <:+: pr.2 :=
  ((c7_amended_page_isolation defaultChunkCfg sampleMeta c7wText).2.1 (by decide))
    (createChunk sampleMeta (List.replicate 301 'a') (some 1) 1) (by decide)

set_option maxRecDepth 200000 in
/-- Claim C8 counterexample: two documents with the same metadata but
different 400-character contents produce chunks with different content and
identical ids — the id is not content-derived, and two chunks with
different content can receive the same id. -/
theorem c8_counterexample :
    (createChunks defaultChunkCfg sampleMeta (List.replicate 400 'a')).map Chunk.id =
      (createChunks defaultChunkCfg sampleMeta (List.replicate 400 'b')).map Chunk.id ∧
    (createChunks defaultChunkCfg sampleMeta (List.replicate 400 'a')).map Chunk.content ≠
      (createChunks defaultChunkCfg sampleMeta (List.replicate 400 'b')).map Chunk.content := by
  decide

/-- Claim C8 (amended): every produced chunk's id is
`generateChunkId` of the document's case number and filename together with
the chunk's page number and chunk index — a deterministic function of
position and document metadata, not of the chunk's content — so
re-chunking the same bytes reassigns identical ids, but chunks with
different content may share an id. -/
theorem c8_amended_id_position_derived (cfg : ChunkCfg) (md : DocMeta) (text : List Char) :
    ∀ c ∈ createChunks cfg md text, c.id = generateChunkId md c.pageNumber c.chunkIndex := by
  intro c hc
  simp only [createChunks] at hc
  split at hc
  · obtain ⟨h1, h2, _⟩ := createChunksFromText_mem cfg md (cleanText text) none c hc
    rw [h2, h1]
  · obtain ⟨l, hl, hcl⟩ := List.mem_flatten.mp hc
    obtain ⟨pr, hpr, rfl⟩ := List.mem_map.mp hl
    obtain ⟨h1, h2, _⟩ := createChunksFromText_mem cfg md pr.2 (some pr.1) c hcl
    rw [h2, h1]

set_option maxRecDepth 200000 in
theorem c8_amended_id_position_derived_witness :
    (createChunk sampleMeta (cleanText (List.replicate 400 'a')) none 1).id =
      generateChunkId sampleMeta
        (createChunk sampleMeta (cleanText (List.replicate 400 'a')) none 1).pageNumber
        (createChunk sampleMeta (cleanText (List.replicate 400 'a')) none 1).chunkIndex :=
  c8_amended_id_position_derived defaultChunkCfg sampleMeta (List.replicate 400 'a')
    (createChunk sampleMeta (cleanText (List.replicate 400 'a')) none 1) (by decide)

/-! ## Extraction Worker Pool partition (part_003 lines 78-84 and
1130-1169)

`chunkArray(array, chunkSize)` slices the array into consecutive pieces of
`chunkSize` elements (`for (i = 0; i < array.length; i += chunkSize)`);
`processDocumentsInParallel` picks `effectiveWorkers = min(maxWorkers,
documentLinks.length)` and `documentsPerWorker =
Math.ceil(documentLinks.length / effectiveWorkers)` and hands each slice
to one worker; the per-worker results are concatenated in slice order. -/

/-- The `chunkArray` loop.  One fuel unit per iteration; every iteration
consumes `size ≥ 1` elements (all call sites pass a positive size), so
fuel `array.length` (each iteration also consumes at least one element)
never runs out. -/
def chunkArrayF {α : Type} : Nat → List α → Nat → List (List α)
  | 0, _, _ => []
  | _, [], _ => []
  | fuel + 1, l@(_ :: _), size => l.take size :: chunkArrayF fuel (l.drop size) size

def chunkArray {α : Type} (array : List α) (chunkSize : Nat) : List (List α) :=
  chunkArrayF array.length array chunkSize

/-- The partition computed by `processDocumentsInParallel` before the
workers are launched (JS `Math.ceil(a / b)` is `(a + b - 1) / b` on
naturals). -/
def partitionDocs {α : Type} (documentLinks : List α) (maxWorkers : Nat) : List (List α) :=
  if documentLinks.length = 0 then []
  else
    let effectiveWorkers := min maxWorkers documentLinks.length
    let documentsPerWorker :=
      (documentLinks.length + effectiveWorkers - 1) / effectiveWorkers
    chunkArray documentLinks documentsPerWorker

theorem chunkArrayF_flatten {α : Type} :
    ∀ (fuel : Nat) (l : List α) (size : Nat), l.length ≤ fuel → 1 ≤ size →
      (chunkArrayF fuel l size).flatten = l := by
  intro fuel
  induction fuel with
  | zero =>
    intro l size hl _
    have : l = [] := List.length_eq_zero.mp (Nat.le_zero.mp hl)
    subst this
    rfl
  | succ fuel ih =>
    intro l size hl hs
    cases l with
    | nil => rfl
    | cons c rest =>
      simp only [chunkArrayF, List.flatten_cons]
      rw [ih (List.drop size (c :: rest)) size ?_ hs]
      · exact List.take_append_drop size (c :: rest)
      · simp only [List.length_drop, List.length_cons]
        simp only [List.length_cons] at hl
        omega

theorem chunkArrayF_length_le {α : Type} :
    ∀ (fuel : Nat) (l : List α) (size e : Nat), l.length ≤ fuel → 1 ≤ size →
      l.length ≤ e * size → (chunkArrayF fuel l size).length ≤ e := by
  intro fuel
  induction fuel with
  | zero =>
    intro l size e hl _ _
    have : l = [] := List.length_eq_zero.mp (Nat.le_zero.mp hl)
    subst this
    simp [chunkArrayF]
  | succ fuel ih =>
    intro l size e hl hs hle
    cases l with
    | nil => simp [chunkArrayF]
    | cons c rest =>
      have he : 1 ≤ e := by
        by_contra h
        have : e = 0 := by omega
        subst this
        simp at hle
      simp only [chunkArrayF, List.length_cons]
      have hrec :
          (chunkArrayF fuel (List.drop size (c :: rest)) size).length ≤ e - 1 := by
        refine ih _ size (e - 1) ?_ hs ?_
        · simp only [List.length_drop, List.length_cons]
          simp only [List.length_cons] at hl
          omega
        · simp only [List.length_drop]
          rw [Nat.sub_mul, Nat.one_mul]
          omega
      omega

/-- Claim C10: for a non-empty document list and a worker bound `W ≥ 1`
the partition of `processDocumentsInParallel` is exhaustive and disjoint —
concatenating the per-worker slices in order yields exactly the original
list — and at most `min(W, length)` slices (hence workers) are produced. -/
theorem c10_partition_exact (α : Type) (documentLinks : List α) (maxWorkers : Nat)
    (hne : documentLinks ≠ []) (hW : 1 ≤ maxWorkers) :
    (partitionDocs documentLinks maxWorkers).flatten = documentLinks ∧
    (partitionDocs documentLinks maxWorkers).length ≤
      min maxWorkers documentLinks.length := by
  have hlen : 1 ≤ documentLinks.length := by
    cases documentLinks with
    | nil => exact absurd rfl hne
    | cons c rest => simp
  have hlz : ¬ (documentLinks.length = 0) := by omega
  have he1 : 1 ≤ min maxWorkers documentLinks.length := by omega
  have hsz : 1 ≤ (documentLinks.length + min maxWorkers documentLinks.length - 1) /
      min maxWorkers documentLinks.length := by
    apply Nat.le_div_iff_mul_le (by omega) |>.mpr
    omega
  constructor
  · simp only [partitionDocs, hlz, if_false, chunkArray]
    exact chunkArrayF_flatten _ _ _ le_rfl hsz
  · simp only [partitionDocs, hlz, if_false, chunkArray]
    set n := documentLinks.length with hn
    set e := min maxWorkers n with he
    set q := (n + e - 1) / e with hq
    have hdm := Nat.div_add_mod (n + e - 1) e
    have hmlt : (n + e - 1) % e < e := Nat.mod_lt _ (by omega)
    have hnq : n ≤ e * q := by
      rw [hq]
      omega
    exact chunkArrayF_length_le _ _ _ _ le_rfl hsz hnq

theorem c10_partition_exact_witness :
    (partitionDocs [1, 2, 3, 4, 5] 2).flatten = [1, 2, 3, 4, 5] ∧
    (partitionDocs [1, 2, 3, 4, 5] 2).length ≤ min 2 ([1, 2, 3, 4, 5] : List Nat).length :=
  c10_partition_exact Nat [1, 2, 3, 4, 5] 2 (by decide) (by decide)

/-! ## Page Text Extractors: blank-page exclusion (part_003 lines
404-443 and 870-915)

Both cited loops append `\n--- PAGE ${n} ---\n${text}\n` for a page only
when the scraped, trimmed page text is strictly longer than 10 characters
and count it in the extracted page total only in that case. -/

/-- The page section `\n--- PAGE ${n} ---\n${text}\n` appended per kept
page. -/
def renderPageSection (n : Nat) (text : List Char) : List Char :=
  "\n--- PAGE ".data ++ (Nat.repr n).data ++ " ---\n".data ++ text ++ "\n".data

/-- The laserfiche_image small-document loop (part_003 lines 404-443):
`pageText` is what the per-page evaluation returns (already trimmed by the
page script; a page whose evaluation throws contributes the same as an
empty page).  Returns `(allText, successfulPages)`. -/
def lfSmallExtract (pageText : Nat → List Char) (totalPageCount : Nat) : List Char × Nat :=
  (List.range' 1 totalPageCount).foldl
    (fun acc pageNum =>
      if 10 < (pageText pageNum).length then
        (acc.1 ++ renderPageSection pageNum (pageText pageNum), acc.2 + 1)
      else acc)
    ([], 0)

/-- The page records the weblink_iframe bulk extraction pass reads from
the DOM. -/
structure PageRec where
  pageNumber : Nat
  loaded : Bool
  markedCount : Nat
  text : List Char

/-- The bulk pass keeps a page iff it is marked loaded, has marked
content, and its trimmed text is strictly longer than 10 characters. -/
def weblinkKeep (p : PageRec) : Bool :=
  p.loaded && decide (0 < p.markedCount) && decide (10 < (jsTrim p.text).length)

/-- Stable insertion used to model the stable JS
`sort((a, b) => a.pageNumber - b.pageNumber)`. -/
def insertByPage (x : Nat × List Char) : List (Nat × List Char) → List (Nat × List Char)
  | [] => [x]
  | y :: ys => if x.1 ≤ y.1 then x :: y :: ys else y :: insertByPage x ys

def sortByPage (l : List (Nat × List Char)) : List (Nat × List Char) :=
  l.foldr insertByPage []

/-- The weblink_iframe bulk extraction (part_003 lines 870-915): filter
the loaded pages, trim, sort by page number, then append one rendered
section per kept page; `processedPages` is the number of kept pages. -/
def weblinkBulkExtract (allPages : List PageRec) : List Char × Nat :=
  let loadedPages := (allPages.filter weblinkKeep).map fun p => (p.pageNumber, jsTrim p.text)
  let sorted := sortByPage loadedPages
  ((sorted.map fun pr => renderPageSection pr.1 pr.2).flatten, sorted.length)

theorem lfFold_spec (pageText : Nat → List Char) :
    ∀ (ns : List Nat) (acc : List Char × Nat),
      ns.foldl (fun acc pageNum =>
        if 10 < (pageText pageNum).length then
          (acc.1 ++ renderPageSection pageNum (pageText pageNum), acc.2 + 1)
        else acc) acc =
      (acc.1 ++ ((ns.filter fun n => 10 < (pageText n).length).map
          fun n => renderPageSection n (pageText n)).flatten,
        acc.2 + (ns.filter fun n => 10 < (pageText n).length).length) := by
  intro ns
  induction ns with
  | nil => intro acc; simp
  | cons n rest ih =>
    intro acc
    by_cases h : 10 < (pageText n).length
    · simp only [List.foldl_cons]
      rw [if_pos h, ih]
      simp only [List.filter_cons, h, decide_eq_true_eq, if_true, List.map_cons,
        List.flatten_cons, List.length_cons, Prod.mk.injEq, List.append_assoc]
      exact ⟨trivial, by omega⟩
    · simp only [List.foldl_cons]
      rw [if_neg h, ih]
      simp [List.filter_cons, h]

theorem insertByPage_length (x : Nat × List Char) :
    ∀ l, (insertByPage x l).length = l.length + 1 := by
  intro l
  induction l with
  | nil => rfl
  | cons y ys ih =>
    simp only [insertByPage]
    split
    · simp
    · simp [ih]

theorem sortByPage_length : ∀ l, (sortByPage l).length = l.length := by
  intro l
  induction l with
  | nil => rfl
  | cons x xs ih =>
    show (insertByPage x (sortByPage xs)).length = xs.length + 1
    rw [insertByPage_length, ih]

/-- Claim C9: in the laserfiche_image small-document loop the output text
is exactly the concatenation of the rendered sections of the pages whose
scraped text exceeds 10 characters and the page total counts exactly
those pages; any page yielding fewer than 10 characters is not among
them.  In the weblink_iframe bulk pass a page whose trimmed text is
shorter than 10 characters is never kept, and the output is built, and
the page total counted, only from kept pages. -/
theorem c9_blank_page_exclusion :
    (∀ (pageText : Nat → List Char) (totalPageCount : Nat),
      lfSmallExtract pageText totalPageCount =
        ((((List.range' 1 totalPageCount).filter
              fun n => 10 < (pageText n).length).map
            fun n => renderPageSection n (pageText n)).flatten,
          ((List.range' 1 totalPageCount).filter
              fun n => 10 < (pageText n).length).length)) ∧
    (∀ (pageText : Nat → List Char) (totalPageCount n : Nat),
      (pageText n).length < 10 →
        n ∉ (List.range' 1 totalPageCount).filter fun k => 10 < (pageText k).length) ∧
    (∀ p : PageRec, (jsTrim p.text).length < 10 → weblinkKeep p = false) ∧
    (∀ allPages : List PageRec,
      (weblinkBulkExtract allPages).1 =
        ((sortByPage ((allPages.filter weblinkKeep).map
            fun p => (p.pageNumber, jsTrim p.text))).map
          fun pr => renderPageSection pr.1 pr.2).flatten ∧
      (weblinkBulkExtract allPages).2 = (allPages.filter weblinkKeep).length) := by
  refine ⟨?_, ?_, ?_, ?_⟩
  · intro pageText total
    have := lfFold_spec pageText (List.range' 1 total) ([], 0)
    simpa [lfSmallExtract] using this
  · intro pageText total n hlt hmem
    have := (List.mem_filter.mp hmem).2
    simp only [decide_eq_true_iff] at this
    omega
  · intro p hlt
    simp only [weblinkKeep, Bool.and_eq_false_iff]
    right
    simp only [decide_eq_false_iff_not]
    omega
  · intro allPages
    refine ⟨rfl, ?_⟩
    show (sortByPage _).length = _
    rw [sortByPage_length, List.length_map]

/-- A loaded page with marked content whose trimmed text is 2 characters. -/
def blankPageSample : PageRec :=
  { pageNumber := 3, loaded := true, markedCount := 5, text := "   hi   ".data }

theorem c9_blank_page_exclusion_witness :
    weblinkKeep blankPageSample = false :=
  c9_blank_page_exclusion.2.2.1 blankPageSample (by decide)

/-! ## `extractDocumentText` error boundary and `processDocumentChunk`
(part_003 lines 328-1024 and 1079-1128)

The whole body of `extractDocumentText` sits in one `try`; the `catch`
records the failure and returns `null`.  The strategy bodies are modelled
by an outcome oracle (`strategyOutcome`) so the boundary theorem holds for
EVERY possible behaviour of the navigation and of the three extraction
strategies, including thrown errors (`Except.error`); the weblink branch
rethrows its inner errors into the same outer catch.  The saved file and
`simpleTextCleanup` are omitted: the record models the returned object. -/

inductive DocType
  | laserficheImage
  | pdfjs
  | laserficheText
  | weblinkIframe
  | unknown
deriving DecidableEq, Repr

/-- The five DOM signature probes read after the "View plain text" click. -/
structure ViewerDom where
  hasTextLayers : Bool
  hasPdfLayers : Bool
  hasPdfViewer : Bool
  hasMarkedContent : Bool
  hasWebLinkIframe : Bool

/-- The re-detection priority order of part_003 lines 348-367. -/
def detectDocumentType (d : ViewerDom) : DocType :=
  if d.hasTextLayers then DocType.laserficheImage
  else if d.hasPdfViewer && d.hasMarkedContent then DocType.pdfjs
  else if d.hasPdfLayers then DocType.laserficheText
  else if d.hasWebLinkIframe then DocType.weblinkIframe
  else DocType.unknown

/-- An opaque JS exception value. -/
structure JsError where
  message : List Char

/-- The per-document environment: what navigation does, what the DOM
probes return, and what each strategy body would produce (or throw). -/
structure ExtractEnv where
  navError : Option JsError
  dom : ViewerDom
  strategyOutcome : DocType → Except JsError (List Char × Nat)

/-- The structured result object returned on success (`fullText` and
`totalPages`; the source also copies metadata and a citation object). -/
structure ExtractionRecord where
  content : List Char
  pages : Nat

/-- The `try` body of `extractDocumentText`: navigation, re-detection,
`unknown → null`, strategy dispatch, and the empty-text check
(`if (fullText.trim())`). -/
def extractDocumentTextBody (env : ExtractEnv) : Except JsError (Option ExtractionRecord) :=
  match env.navError with
  | some e => Except.error e
  | none =>
    let documentType := detectDocumentType env.dom
    if documentType = DocType.unknown then Except.ok none
    else
      match env.strategyOutcome documentType with
      | Except.error e => Except.error e
      | Except.ok (fullText, totalPages) =>
        if (jsTrim fullText).isEmpty then Except.ok none
        else Except.ok (some { content := fullText, pages := totalPages })

/-- `extractDocumentText`: the outer catch converts every thrown error
into `null`. -/
def extractDocumentText (env : ExtractEnv) : Option ExtractionRecord :=
  match extractDocumentTextBody env with
  | Except.ok r => r
  | Except.error _ => none

/-- `processDocumentChunk`: iterate the worker's documents, pushing each
non-null extraction result. -/
def processDocumentChunk (documentChunk : List ExtractEnv) : List ExtractionRecord :=
  documentChunk.filterMap extractDocumentText

/-- Claim C6: extraction never propagates an exception past its own
boundary — whatever the navigation and strategy bodies do (including
throwing), the caller receives a structured record or `null`; a viewer
matching no known signature is a terminal per-document `null`; and a
`null` for one document leaves the processing of sibling documents in the
same chunk unchanged. -/
theorem c6_extraction_error_containment (env : ExtractEnv) (rest : List ExtractEnv) :
    (detectDocumentType env.dom = DocType.unknown → extractDocumentText env = none) ∧
    (∀ e, extractDocumentTextBody env = Except.error e → extractDocumentText env = none) ∧
    (processDocumentChunk (env :: rest) =
      (match extractDocumentText env with
        | some r => [r]
        | none => []) ++ processDocumentChunk rest) ∧
    (extractDocumentText env = none →
      processDocumentChunk (env :: rest) = processDocumentChunk rest) := by
  refine ⟨?_, ?_, ?_, ?_⟩
  · intro h
    cases hn : env.navError with
    | some e => simp [extractDocumentText, extractDocumentTextBody, hn]
    | none => simp [extractDocumentText, extractDocumentTextBody, hn, h]
  · intro e he
    simp [extractDocumentText, he]
  · simp only [processDocumentChunk, List.filterMap_cons]
    cases extractDocumentText env <;> simp
  · intro h
    simp [processDocumentChunk, List.filterMap_cons, h]

/-- A viewer page matching none of the four signatures. -/
def unknownViewerEnv : ExtractEnv :=
  { navError := none
    dom := { hasTextLayers := false, hasPdfLayers := false, hasPdfViewer := false,
             hasMarkedContent := false, hasWebLinkIframe := false }
    strategyOutcome := fun _ => Except.ok ("some text".data, 1) }

theorem c6_extraction_error_containment_witness :
    extractDocumentText unknownViewerEnv = none ∧
    processDocumentChunk [unknownViewerEnv] = processDocumentChunk [] :=
  ⟨(c6_extraction_error_containment unknownViewerEnv []).1 (by decide),
   (c6_extraction_error_containment unknownViewerEnv []).2.2.2
     ((c6_extraction_error_containment unknownViewerEnv []).1 (by decide))⟩

/-! ## Relevance Search Engine scoring (ai.js lines 386-506)

`enhancedKeywordSearch` computes, per chunk, a base score from search-term
occurrence counts weighted by term length plus a rate-keyword bonus, then
multiplies by 0.1 for appendix-flagged chunks, by 2 for direct-testimony
sources, by 1.5 for pages before 50 and by 0.3 for pages after 1000.  The
JS float constants 0.1, 1.5, 0.3 are modelled by the intended rationals
1/10, 3/2, 3/10; every fact proved below (exact ratios and strict
ordering of positive scores) holds equally for the float values, which
are positive and below/above 1 in the same way. -/

/-- The stop-word set of `extractKeywords`. -/
def stopWords : List (List Char) :=
  ["the", "a", "an", "and", "or", "but", "in", "on", "at", "to", "for", "of",
   "with", "by", "is", "are", "was", "were", "what", "how", "when", "where",
   "why"].map String.data

/-- `query.replace(/[^\w\s]/g, ' ')`: every character that is neither a
word character nor whitespace becomes a space. -/
def stripPunct (l : List Char) : List Char :=
  l.map fun c => if isWordChar c || jsWhitespace c then c else ' '

/-- `[...new Set(words)]`: keep the first occurrence of each word.  Each
step consumes one element (the filter only shortens the tail), so fuel
`l.length` never runs out. -/
def dedupFirstF : Nat → List (List Char) → List (List Char)
  | 0, _ => []
  | _ + 1, [] => []
  | fuel + 1, x :: xs => x :: dedupFirstF fuel (xs.filter fun y => y ≠ x)

def dedupFirst (l : List (List Char)) : List (List Char) :=
  dedupFirstF l.length l

/-- `extractKeywords` (ai.js lines 566-575). -/
def extractKeywords (query : List Char) : List (List Char) :=
  dedupFirst ((splitOnPred jsWhitespace (stripPunct (toLowerStr query))).filter
    fun w => 2 < w.length && !stopWords.contains w)

/-- The rate-specific bonus keywords of `enhancedKeywordSearch`. -/
def rateKeywords : List (List Char) :=
  ["rate of return", "authorized rate", "ROE", "return on equity",
   "rate increase", "rate adjustment", "revenue requirement",
   "percent", "%", "basis points", "cost of capital",
   "rate case", "general rate", "tariff"].map String.data

/-- `term.length > 3 ? 2 : 1`. -/
def termWeight (t : List Char) : ℚ :=
  if 3 < t.length then 2 else 1

/-- The base keyword score plus the rate-keyword bonus (`score +=
matches * weight` and `score += matches * 5`, modelled as sums). -/
def baseScore (content : List Char) (searchTerms : List (List Char)) : ℚ :=
  (searchTerms.map fun term =>
    (countOccur (toLowerStr content) (toLowerStr term) : ℚ) * termWeight term).sum +
  (rateKeywords.map fun rateTerm =>
    (countOccur (toLowerStr content) (toLowerStr rateTerm) : ℚ) * 5).sum

/-- `source.toLowerCase().includes('direct') && !source.toLowerCase().includes('exhibit')`. -/
def isDirectTestimony (source : List Char) : Bool :=
  jsIncludes (toLowerStr source) "direct".data &&
    !(jsIncludes (toLowerStr source) "exhibit".data)

/-- Match `/\d+\s+\d+\s+\d+/` at the head of `l` (greedy runs; the digit
and whitespace classes are disjoint, so no backtracking arises): on
success return the remainder after the match. -/
def matchTripleNumAt (l : List Char) : Option (List Char) :=
  let d1 := l.takeWhile isDigitChar
  if d1.isEmpty then none else
  let r1 := l.drop d1.length
  let w1 := r1.takeWhile jsWhitespace
  if w1.isEmpty then none else
  let r2 := r1.drop w1.length
  let d2 := r2.takeWhile isDigitChar
  if d2.isEmpty then none else
  let r3 := r2.drop d2.length
  let w2 := r3.takeWhile jsWhitespace
  if w2.isEmpty then none else
  let r4 := r3.drop w2.length
  let d3 := r4.takeWhile isDigitChar
  if d3.isEmpty then none else some (r4.drop d3.length)

/-- `(content.match(/\d+\s+\d+\s+\d+/g) || []).length`.  Every scan step
consumes at least one character, so fuel `l.length + 1` never runs out. -/
def countTripleNumF : Nat → List Char → Nat
  | 0, _ => 0
  | _ + 1, [] => 0
  | fuel + 1, c :: rest =>
    match matchTripleNumAt (c :: rest) with
    | some after => 1 + countTripleNumF fuel after
    | none => countTripleNumF fuel rest

def countTripleNum (l : List Char) : Nat :=
  countTripleNumF (l.length + 1) l

/-- `isAppendixContent` (ai.js lines 476-506).  `parseInt(pageNumber) || 0`
maps a missing page number to 0. -/
def isAppendixContent (content source : List Char) (pageNumber : Option Nat) : Bool :=
  let c := toLowerStr content
  let s := toLowerStr source
  let pageNum := match pageNumber with | some n => n | none => 0
  decide (1000 < pageNum) ||
  (jsIncludes c "meeting notes".data || jsIncludes c "attendees:".data) ||
  (jsIncludes s "exhibits".data && decide (100 < pageNum)) ||
  (jsIncludes c "appendix a".data || jsIncludes c "appendix b".data) ||
  (jsIncludes c "bibliography".data || jsIncludes c "references".data) ||
  (decide (10 < countTripleNum c) && decide (c.length < 2000)) ||
  (jsIncludes c "certificate of service".data || jsIncludes c "verification".data)

/-- `parseInt(chunk.metadata.pageNumber) || 999`: a missing or zero page
number becomes 999 for the page prior. -/
def effectivePageNum (pageNumber : Option Nat) : Nat :=
  match pageNumber with
  | some n => if n = 0 then 999 else n
  | none => 999

/-- The multiplicative modifier cascade of `enhancedKeywordSearch`
(ai.js lines 425-445): appendix penalty, direct-testimony boost, and the
two page priors, applied in source order to the base score. -/
def applyScoreModifiers (base : ℚ) (isAppendix isDirectTest : Bool)
    (pageNumber : Option Nat) : ℚ :=
  let s1 := if isAppendix then base * (1 / 10 : ℚ) else base
  let s2 := if isDirectTest then s1 * 2 else s1
  let pageNum := effectivePageNum pageNumber
  let s3 := if pageNum < 50 then s2 * (3 / 2 : ℚ) else s2
  if 1000 < pageNum then s3 * (3 / 10 : ℚ) else s3

/-- The complete per-chunk score, with the flags computed as in the
source. -/
def enhancedChunkScore (content source : List Char) (pageNumber : Option Nat)
    (searchTerms : List (List Char)) : ℚ :=
  applyScoreModifiers (baseScore content searchTerms)
    (isAppendixContent content source pageNumber) (isDirectTestimony source) pageNumber

theorem applyScoreModifiers_eq (base : ℚ) (a d : Bool) (p : Option Nat) :
    applyScoreModifiers base a d p =
      base * (if a then (1 / 10 : ℚ) else 1) * (if d then (2 : ℚ) else 1) *
        (if effectivePageNum p < 50 then (3 / 2 : ℚ) else 1) *
        (if 1000 < effectivePageNum p then (3 / 10 : ℚ) else 1) := by
  simp only [applyScoreModifiers]
  cases a <;> cases d <;> split <;> split <;> simp

theorem baseScore_pos (content : List Char) (searchTerms : List (List Char))
    (h : ∃ term ∈ searchTerms, 0 < countOccur (toLowerStr content) (toLowerStr term)) :
    0 < baseScore content searchTerms := by
  obtain ⟨t, ht, hc⟩ := h
  have hw : (1 : ℚ) ≤ termWeight t := by
    unfold termWeight
    split <;> norm_num
  have h1 : (1 : ℚ) ≤ (countOccur (toLowerStr content) (toLowerStr t) : ℚ) := by
    exact_mod_cast hc
  have hterm : (1 : ℚ) ≤ (countOccur (toLowerStr content) (toLowerStr t) : ℚ) * termWeight t := by
    nlinarith
  have hnn : ∀ x ∈ (searchTerms.map fun term =>
      (countOccur (toLowerStr content) (toLowerStr term) : ℚ) * termWeight term), 0 ≤ x := by
    intro x hx
    obtain ⟨u, _, rfl⟩ := List.mem_map.mp hx
    have hwu : (0 : ℚ) ≤ termWeight u := by
      unfold termWeight
      split <;> norm_num
    positivity
  have hsum1 : (countOccur (toLowerStr content) (toLowerStr t) : ℚ) * termWeight t ≤
      (searchTerms.map fun term =>
        (countOccur (toLowerStr content) (toLowerStr term) : ℚ) * termWeight term).sum :=
    List.single_le_sum hnn _ (List.mem_map_of_mem _ ht)
  have hsum2 : (0 : ℚ) ≤ (rateKeywords.map fun rateTerm =>
      (countOccur (toLowerStr content) (toLowerStr rateTerm) : ℚ) * 5).sum := by
    apply List.sum_nonneg
    intro x hx
    obtain ⟨u, _, rfl⟩ := List.mem_map.mp hx
    positivity
  unfold baseScore
  linarith

/-- Claim C5: with at least one matched search term the base score is
positive, the appendix flag multiplies the final score by exactly 1/10
(JS `0.1`), the direct-testimony flag multiplies it by exactly 2, and an
appendix-flagged chunk scores strictly lower than an otherwise-identical
chunk without the flag. -/
theorem c5_appendix_penalty_strict (content : List Char) (searchTerms : List (List Char))
    (isDirectTest : Bool) (pageNumber : Option Nat)
    (hmatch : ∃ term ∈ searchTerms, 0 < countOccur (toLowerStr content) (toLowerStr term)) :
    applyScoreModifiers (baseScore content searchTerms) true isDirectTest pageNumber =
      (1 / 10 : ℚ) *
        applyScoreModifiers (baseScore content searchTerms) false isDirectTest pageNumber ∧
    (∀ a : Bool,
      applyScoreModifiers (baseScore content searchTerms) a true pageNumber =
        2 * applyScoreModifiers (baseScore content searchTerms) a false pageNumber) ∧
    applyScoreModifiers (baseScore content searchTerms) true isDirectTest pageNumber <
      applyScoreModifiers (baseScore content searchTerms) false isDirectTest pageNumber := by
  have hbase := baseScore_pos content searchTerms hmatch
  refine ⟨?_, ?_, ?_⟩
  · rw [applyScoreModifiers_eq, applyScoreModifiers_eq]
    split_ifs <;> (first | ring1 | exact (‹False›).elim | exact absurd rfl ‹¬true = true›)
  · intro a
    rw [applyScoreModifiers_eq, applyScoreModifiers_eq]
    split_ifs <;> (first | ring1 | exact (‹False›).elim | exact absurd rfl ‹¬true = true›)
  · rw [applyScoreModifiers_eq, applyScoreModifiers_eq]
    have hd : (0 : ℚ) < (if isDirectTest then (2 : ℚ) else 1) := by
      split <;> norm_num
    have hp1 : (0 : ℚ) < (if effectivePageNum pageNumber < 50 then (3 / 2 : ℚ) else 1) := by
      split <;> norm_num
    have hp2 : (0 : ℚ) < (if 1000 < effectivePageNum pageNumber then (3 / 10 : ℚ) else 1) := by
      split <;> norm_num
    simp only [if_true, Bool.false_eq_true, if_false]
    nlinarith [mul_pos hbase (mul_pos hd (mul_pos hp1 hp2))]

theorem c5_appendix_penalty_strict_witness :
    (∃ term ∈ ["rate".data],
      0 < countOccur (toLowerStr "a rate case".data) (toLowerStr term)) ∧
    applyScoreModifiers (baseScore "a rate case".data ["rate".data]) true false none <
      applyScoreModifiers (baseScore "a rate case".data ["rate".data]) false false none :=
  ⟨⟨"rate".data, by decide, by decide⟩,
   (c5_appendix_penalty_strict "a rate case".data ["rate".data] false none
     ⟨"rate".data, by decide, by decide⟩).2.2⟩
